import Mathlib

/-
Verification of the slidechain custodian pegging engine
(slidechain/export.go, slidechain/peg.go aka src/unnamed/part_001).

Shallow embedding conventions:
  - byte strings are `List Nat` with every element < 256 where it matters;
  - Go `log.Fatalf` (process termination) is modelled as the `none` /
    `.error` branch of an `Option` / `Except` result;
  - the SQL store is modelled as a list of rows, with the conditional
    UPDATE statements translated row by row;
  - the main-ledger client submit result is an abstract outcome type
    carrying exactly the information the code inspects (whether the root
    cause is an equator error, and if so the transaction result code
    reported by ResultCodes, which can itself fail).
-/

namespace Slidechain

/-- Peg-out states, from the `pegOutState` enum in export.go
(`pegOutNotYet`, `pegOutOK`, `pegOutRetry`, `pegOutFail`, iota order). -/
inductive PegOutState
  | notYet
  | ok
  | retry
  | fail
  deriving DecidableEq, Repr

abbrev pegOutNotYet := PegOutState.notYet
abbrev pegOutOK := PegOutState.ok
abbrev pegOutRetry := PegOutState.retry
abbrev pegOutFail := PegOutState.fail

/-- Numeric value of each state, matching the Go `iota` order
(`pegOutNotYet = 0`, `pegOutOK = 1`, `pegOutRetry = 2`, `pegOutFail = 3`). -/
def PegOutState.toInt : PegOutState → Nat
  | .notYet => 0
  | .ok => 1
  | .retry => 2
  | .fail => 3

/-- The transaction result code the code compares against:
`xdr.TransactionResultCodeTxBadSeq.String()` ("bad sequence number"). -/
def txBadSeqCode : String := "tx_bad_seq"

/-- Root cause of a failed main-ledger submission, as inspected by
`pegOutFromExports`: either the root of the error is an `*equator.Error`
(in which case `ResultCodes()` either fails with its own error or yields
a transaction result-code string), or it is some other error. -/
inductive SubmitError
  | equator (resultCodes : Except String String)
  | other

/-- Result of `c.pegOut` (build + sign + submit): `none` is success,
`some e` a failed submission with root cause `e`. -/
abbrev SubmitResult := Option SubmitError

/-- Outcome classification from `pegOutFromExports` (export.go lines
156-171): start from `pegOutOK`; on error switch to `pegOutFail`; if the
root cause is an equator error, fetch its result codes (`log.Fatalf`,
modelled as `none`, when that fails) and switch to `pegOutRetry` exactly
when the transaction code equals `TxBadSeq`. -/
def classifySubmit : SubmitResult → Option PegOutState
  | none => some pegOutOK
  | some .other => some pegOutFail
  | some (.equator (.error _)) => none
  | some (.equator (.ok code)) =>
      if code = txBadSeqCode then some pegOutRetry else some pegOutFail

/-- C1: a successful submission is recorded `ok`; a failure whose root
cause is an equator (ledger-client) error reporting result code
`tx_bad_seq` is recorded `retry`; every other failure, whenever a state
is recorded at all, is recorded `fail`; and the only case in which no
state is recorded is the fatal path where the equator error's result
codes cannot be obtained (`log.Fatalf`). -/
theorem pegout_retry_classification :
    classifySubmit none = some pegOutOK
    ∧ classifySubmit (some (.equator (.ok txBadSeqCode))) = some pegOutRetry
    ∧ (∀ e : SubmitError, e ≠ .equator (.ok txBadSeqCode) →
        classifySubmit (some e) = some pegOutFail ∨ classifySubmit (some e) = none)
    ∧ (∀ e : SubmitError,
        classifySubmit (some e) = none ↔ ∃ msg, e = .equator (.error msg)) := by
  refine ⟨rfl, by simp [classifySubmit], ?_, ?_⟩
  · intro e he
    match e with
    | .other => exact Or.inl rfl
    | .equator (.error msg) => exact Or.inr rfl
    | .equator (.ok code) =>
        left
        have hcode : code ≠ txBadSeqCode := by
          intro h
          exact he (by rw [h])
        simp [classifySubmit, hcode]
  · intro e
    constructor
    · intro h
      match e with
      | .other => simp [classifySubmit] at h
      | .equator (.error msg) => exact ⟨msg, rfl⟩
      | .equator (.ok code) =>
          by_cases hc : code = txBadSeqCode <;> simp [classifySubmit, hc] at h
    · rintro ⟨msg, rfl⟩
      rfl

/-- Witness for the classification theorem at concrete inputs: an error
whose root cause is not an equator error is recorded `fail`. -/
theorem pegout_retry_classification_witness :
    classifySubmit (some .other) = some pegOutFail
    ∨ classifySubmit (some .other) = none :=
  pegout_retry_classification.2.2.1 .other (fun h => SubmitError.noConfusion h)

/-! The peg-out transaction builder (`buildPegOutTx`, export.go lines
202-244). A `b.TransactionBuilder` is modelled by the data the builder
mutations set: network passphrase, source account, sequence number,
base fee and the ordered operation list. The payment amount strings
(`xlm.Amount(amount).HorizonString()` for native assets and
`strconv.FormatInt(amount, 10)` for credit assets) are renderings of
the same integer, so the operation carries the integer. -/

/-- The `baseFee` constant from export.go. -/
def baseFee : Nat := 100

/-- An `xdr.Asset` as far as `buildPegOutTx` inspects it: the three XDR
asset types the switch recognizes, plus any other value of the
underlying int32 enum (the switch has no default branch). -/
inductive Asset
  | native
  | creditAlphanum4 (code : String) (issuer : String)
  | creditAlphanum12 (code : String) (issuer : String)
  | unknownType (t : Int)
  deriving DecidableEq, Repr

/-- A `b.PaymentBuilder`: either one of the two populated forms built by
the switch in `buildPegOutTx`, or the zero value `var paymentOp
b.PaymentBuilder` that is left untouched when no switch case matches. -/
inductive PaymentDetails
  | zeroPayment
  | nativePayment (source destination : String) (amount : Int)
  | creditPayment (source destination : String) (code issuer : String) (amount : Int)
  deriving DecidableEq, Repr

/-- A main-ledger operation appended by the transaction builder. -/
inductive Operation
  | accountMerge (destination : String)
  | payment (p : PaymentDetails)
  deriving DecidableEq, Repr

/-- The transaction assembled by `b.Transaction(...)`. -/
structure TransactionB where
  network : String
  sourceAccount : String
  seqnum : Nat
  fee : Nat
  operations : List Operation
  deriving DecidableEq, Repr

/-- Model of `buildPegOutTx` (export.go lines 202-244): switch on the
asset type to build the payment operation (zero-valued when the type is
unrecognized), build the account-merge operation, and assemble a
transaction sourced at the temp account with sequence number
`uint64(seqnum) + 1` (64-bit arithmetic), base fee 100, and operations
`[merge, payment]` in that order. -/
def buildPegOutTx (custodianAddr exporterAddr tempAddr network : String)
    (asset : Asset) (amount : Int) (seqnum : Nat) : Except String TransactionB :=
  let paymentOp : PaymentDetails :=
    match asset with
    | .native => .nativePayment custodianAddr exporterAddr amount
    | .creditAlphanum4 code issuer =>
        .creditPayment custodianAddr exporterAddr code issuer amount
    | .creditAlphanum12 code issuer =>
        .creditPayment custodianAddr exporterAddr code issuer amount
    | .unknownType _ => .zeroPayment
  let mergeAccountOp : Operation := .accountMerge exporterAddr
  .ok { network := network
        sourceAccount := tempAddr
        seqnum := (seqnum + 1) % 2 ^ 64
        fee := baseFee
        operations := [mergeAccountOp, .payment paymentOp] }

/-- C4: for an export of 50 native units recorded with temp-account
sequence number `n`, the engine builds exactly one transaction holding
exactly two operations in order — an account merge of the temp account
to the exporter, then a payment of 50 native units from the custodian
to the exporter — with transaction sequence number `n + 1`; and a
successful submission is classified `ok`. -/
theorem pegout_builds_merge_then_payment (custodian exporter temp network : String)
    (n : Nat) (h : n + 1 < 2 ^ 64) :
    buildPegOutTx custodian exporter temp network .native 50 n =
      .ok { network := network
            sourceAccount := temp
            seqnum := n + 1
            fee := 100
            operations := [.accountMerge exporter,
              .payment (.nativePayment custodian exporter 50)] }
    ∧ classifySubmit none = some pegOutOK := by
  refine ⟨?_, rfl⟩
  simp only [buildPegOutTx, baseFee, Nat.mod_eq_of_lt h]

/-- Witness for the peg-out builder theorem at a concrete sequence
number. -/
theorem pegout_builds_merge_then_payment_witness :
    buildPegOutTx "GCUSTODIAN" "GEXPORTER" "GTEMP" "Test Net" .native 50 5 =
      .ok { network := "Test Net"
            sourceAccount := "GTEMP"
            seqnum := 6
            fee := 100
            operations := [.accountMerge "GEXPORTER",
              .payment (.nativePayment "GCUSTODIAN" "GEXPORTER" 50)] }
    ∧ classifySubmit none = some pegOutOK :=
  pegout_builds_merge_then_payment "GCUSTODIAN" "GEXPORTER" "GTEMP" "Test Net" 5
    (by norm_num)

/-- C10: when the asset's XDR type is none of native, credit-alphanum4
or credit-alphanum12, `buildPegOutTx` does not return an error: the
switch has no default branch, so it silently returns a transaction
whose payment operation is the zero-valued `PaymentBuilder`. -/
theorem pegout_unknown_asset_builds_zero_payment
    (custodian exporter temp network : String) (t amount : Int) (n : Nat) :
    buildPegOutTx custodian exporter temp network (.unknownType t) amount n =
      .ok { network := network
            sourceAccount := temp
            seqnum := (n + 1) % 2 ^ 64
            fee := 100
            operations := [.accountMerge exporter, .payment .zeroPayment] } := rfl

/-! The exports table and the processing loop of `pegOutFromExports`
(export.go lines 99-191). A row of the `exports` table carries the
side-ledger transaction id (primary key), the serialized reference
payload (`pegout_json`) and the `pegged_out` state column. -/

/-- A row of the `exports` table. -/
structure ExportRow where
  txid : List Nat
  pegoutJson : List Nat
  peggedOut : PegOutState
  deriving DecidableEq, Repr

/-- The query `SELECT txid, pegout_json FROM exports WHERE pegged_out IN
($1, $2)` with parameters `pegOutNotYet, pegOutRetry` (export.go line
122). -/
def selectPending (tbl : List ExportRow) : List ExportRow :=
  tbl.filter fun r => decide (r.peggedOut = pegOutNotYet ∨ r.peggedOut = pegOutRetry)

/-- The statement `UPDATE exports SET pegged_out=$1 WHERE txid=$2`
(export.go line 172). -/
def updateExportState (tbl : List ExportRow) (txid : List Nat) (st : PegOutState) :
    List ExportRow :=
  tbl.map fun r => if r.txid = txid then { r with peggedOut := st } else r

/-- State of the first row keyed by `txid`, if present. -/
def stateOf : List ExportRow → List Nat → Option PegOutState
  | [], _ => none
  | r :: rest, txid => if r.txid = txid then some r.peggedOut else stateOf rest txid

/-- The primary-key invariant of the `exports` table: no two rows share
a txid. -/
def uniqueTxids (tbl : List ExportRow) : Prop :=
  tbl.Pairwise fun a b => a.txid ≠ b.txid

/-- Processing of one selected export row by `pegOutFromExports`:
classify the submission outcome (`none` is the fatal path), write the
new state with the single-row update, and forward `(txid, state)` on
the `pegouts` channel exactly when the written state is `pegOutOK` or
`pegOutFail` (export.go lines 156-188). -/
def processExportRow (tbl : List ExportRow) (row : ExportRow) (res : SubmitResult) :
    Option (List ExportRow × Option (List Nat × PegOutState)) :=
  match classifySubmit res with
  | none => none
  | some st =>
      some (updateExportState tbl row.txid st,
        if st = pegOutOK ∨ st = pegOutFail then some (row.txid, st) else none)

/-- One iteration of the `pegOutFromExports` consumer loop acting on one
row: the row is taken from the pending query and processed
non-fatally. -/
inductive PegOutStep : List ExportRow → List ExportRow → Prop
  | step (tbl tbl' : List ExportRow) (row : ExportRow) (res : SubmitResult)
      (fwd : Option (List Nat × PegOutState)) :
      row ∈ selectPending tbl →
      processExportRow tbl row res = some (tbl', fwd) →
      PegOutStep tbl tbl'

theorem classifySubmit_ranges (res : SubmitResult) (st : PegOutState)
    (h : classifySubmit res = some st) :
    st = pegOutOK ∨ st = pegOutRetry ∨ st = pegOutFail := by
  match res with
  | none =>
      simp only [classifySubmit, Option.some.injEq] at h
      exact Or.inl h.symm
  | some .other =>
      simp only [classifySubmit, Option.some.injEq] at h
      exact Or.inr (Or.inr h.symm)
  | some (.equator (.error msg)) => simp [classifySubmit] at h
  | some (.equator (.ok code)) =>
      by_cases hc : code = txBadSeqCode <;>
        simp only [classifySubmit, hc, if_true, if_false, Option.some.injEq,
          if_pos, if_neg, not_false_iff] at h
      · exact Or.inr (Or.inl h.symm)
      · exact Or.inr (Or.inr h.symm)

theorem selectPending_mem (tbl : List ExportRow) (row : ExportRow)
    (h : row ∈ selectPending tbl) :
    row ∈ tbl ∧ (row.peggedOut = pegOutNotYet ∨ row.peggedOut = pegOutRetry) := by
  have := List.mem_filter.mp h
  exact ⟨this.1, of_decide_eq_true this.2⟩

theorem stateOf_updateExportState_ne (tbl : List ExportRow) (txid t : List Nat)
    (st : PegOutState) (h : t ≠ txid) :
    stateOf (updateExportState tbl txid st) t = stateOf tbl t := by
  induction tbl with
  | nil => rfl
  | cons r rest ih =>
      have hmap : updateExportState (r :: rest) txid st =
          (if r.txid = txid then { r with peggedOut := st } else r) ::
            updateExportState rest txid st := rfl
      rw [hmap]
      by_cases hr : r.txid = txid
      · rw [if_pos hr]
        have hrt : ¬r.txid = t := fun hx => h (hx ▸ hr)
        show (if r.txid = t then some st else stateOf (updateExportState rest txid st) t)
            = (if r.txid = t then some r.peggedOut else stateOf rest t)
        rw [if_neg hrt, if_neg hrt]
        exact ih
      · rw [if_neg hr]
        show (if r.txid = t then some r.peggedOut else stateOf (updateExportState rest txid st) t)
            = (if r.txid = t then some r.peggedOut else stateOf rest t)
        by_cases hrt : r.txid = t
        · rw [if_pos hrt, if_pos hrt]
        · rw [if_neg hrt, if_neg hrt]
          exact ih

theorem stateOf_mem_unique (tbl : List ExportRow) (row : ExportRow)
    (hu : uniqueTxids tbl) (hm : row ∈ tbl) :
    stateOf tbl row.txid = some row.peggedOut := by
  induction tbl with
  | nil => cases hm
  | cons r rest ih =>
      rcases List.mem_cons.mp hm with rfl | hm2
      · simp [stateOf]
      · have hne : r.txid ≠ row.txid :=
          (List.pairwise_cons.mp hu).1 row hm2
        simpa [stateOf, hne] using ih (List.pairwise_cons.mp hu).2 hm2

theorem stateOf_updateExportState_self (tbl : List ExportRow) (t : List Nat)
    (st : PegOutState) (h : (stateOf tbl t).isSome) :
    stateOf (updateExportState tbl t st) t = some st := by
  induction tbl with
  | nil => simp [stateOf] at h
  | cons r rest ih =>
      by_cases hrt : r.txid = t
      · simp [updateExportState, stateOf, hrt]
      · have h2 : (stateOf rest t).isSome := by simpa [stateOf, hrt] using h
        simpa [updateExportState, stateOf, hrt] using ih h2

/-- C2: the peg-out state of an exports row is monotone. The submission
classifier only ever produces `ok`, `retry` or `fail` (never
`not-yet`); the pending query selects only rows in state `not-yet` or
`retry`; and across one processing step of `pegOutFromExports` on a
table whose txids are unique, a row in a terminal state (`ok` or
`fail`) keeps its state, and any row whose state changes makes one of
the five transitions not-yet→retry, not-yet→ok, not-yet→fail,
retry→ok, retry→fail. -/
theorem pegout_state_monotone :
    (∀ (res : SubmitResult) (st : PegOutState), classifySubmit res = some st →
      (st = pegOutOK ∨ st = pegOutRetry ∨ st = pegOutFail) ∧ st ≠ pegOutNotYet)
    ∧ (∀ (tbl : List ExportRow) (row : ExportRow), row ∈ selectPending tbl →
      row.peggedOut = pegOutNotYet ∨ row.peggedOut = pegOutRetry)
    ∧ (∀ (tbl tbl' : List ExportRow), uniqueTxids tbl → PegOutStep tbl tbl' →
      ∀ (t : List Nat) (s s' : PegOutState),
        stateOf tbl t = some s → stateOf tbl' t = some s' →
          ((s = pegOutOK ∨ s = pegOutFail) → s' = s)
          ∧ (s ≠ s' →
              (s = pegOutNotYet ∧ s' = pegOutRetry) ∨
              (s = pegOutNotYet ∧ s' = pegOutOK) ∨
              (s = pegOutNotYet ∧ s' = pegOutFail) ∨
              (s = pegOutRetry ∧ s' = pegOutOK) ∨
              (s = pegOutRetry ∧ s' = pegOutFail))) := by
  refine ⟨?_, ?_, ?_⟩
  · intro res st h
    refine ⟨classifySubmit_ranges res st h, ?_⟩
    rcases classifySubmit_ranges res st h with h1 | h1 | h1 <;> subst h1 <;> decide
  · intro tbl row h
    exact (selectPending_mem tbl row h).2
  · intro tbl tbl' hu hstep t s s' hs hs'
    rcases hstep with ⟨row, res, fwd, hmem, hproc⟩
    unfold processExportRow at hproc
    cases hcl : classifySubmit res with
    | none => rw [hcl] at hproc; cases hproc
    | some st =>
        rw [hcl] at hproc
        have hpair := Option.some.inj hproc
        have htbl' : tbl' = updateExportState tbl row.txid st :=
          (congrArg Prod.fst hpair).symm
        subst htbl'
        by_cases hteq : t = row.txid
        · have hrow := selectPending_mem tbl row hmem
          have hsrow : stateOf tbl t = some row.peggedOut := by
            rw [hteq]
            exact stateOf_mem_unique tbl row hu hrow.1
          have hs_eq : s = row.peggedOut := by
            rw [hs] at hsrow
            exact Option.some.inj hsrow
          have hupd : stateOf (updateExportState tbl row.txid st) t = some st := by
            rw [hteq]
            refine stateOf_updateExportState_self tbl row.txid st ?_
            rw [← hteq, hs]
            rfl
          have hs'_eq : s' = st := Option.some.inj (hs'.symm.trans hupd)
          have hpend := hrow.2
          have hrange := classifySubmit_ranges res st hcl
          constructor
          · intro hterm
            rcases hpend with h1 | h1 <;> rw [hs_eq, h1] at hterm <;>
              rcases hterm with h2 | h2 <;> cases h2
          · intro hne
            rw [hs_eq, hs'_eq] at hne ⊢
            rcases hpend with h1 | h1 <;> rcases hrange with h2 | h2 | h2 <;>
              rw [h1, h2] at hne ⊢ <;> revert hne <;> decide
        · have hsame : stateOf (updateExportState tbl row.txid st) t = stateOf tbl t :=
            stateOf_updateExportState_ne tbl row.txid t st hteq
          rw [hs', hs] at hsame
          have hss : s' = s := Option.some.inj hsame
          exact ⟨fun _ => hss, fun hne => absurd hss.symm hne⟩

/-- Witness for the monotonicity theorem: a concrete step on a one-row
table takes the row from `not-yet` to `ok`, one of the five allowed
transitions. -/
theorem pegout_state_monotone_witness :
    (pegOutNotYet = pegOutNotYet ∧ pegOutOK = pegOutRetry) ∨
    (pegOutNotYet = pegOutNotYet ∧ pegOutOK = pegOutOK) ∨
    (pegOutNotYet = pegOutNotYet ∧ pegOutOK = pegOutFail) ∨
    (pegOutNotYet = pegOutRetry ∧ pegOutOK = pegOutOK) ∨
    (pegOutNotYet = pegOutRetry ∧ pegOutOK = pegOutFail) :=
  (pegout_state_monotone.2.2
    [{ txid := [1], pegoutJson := [2], peggedOut := pegOutNotYet }]
    [{ txid := [1], pegoutJson := [2], peggedOut := pegOutOK }]
    (by simp [uniqueTxids])
    (PegOutStep.step _ _ { txid := [1], pegoutJson := [2], peggedOut := pegOutNotYet }
      none (some ([1], pegOutOK)) (by decide) rfl)
    [1] pegOutNotYet pegOutOK rfl rfl).2 (by decide)

/-- The periodic sweep query of the Post-Peg-Out Finalizer
(`watchPegOuts`, peg.go): `SELECT txid, pegout_json FROM exports WHERE
pegged_out IN ($1, $2)` with parameters `pegOutOK, pegOutFail`. -/
def selectCompleted (tbl : List ExportRow) : List ExportRow :=
  tbl.filter fun r => decide (r.peggedOut = pegOutOK ∨ r.peggedOut = pegOutFail)

/-- C9: a processed export record is forwarded on the peg-out channel
iff the state just written for it is `ok` or `fail`, the forwarded
record carries the txid of its exports row (and the written state), and
the finalizer's periodic sweep selects exactly the rows whose state is
`ok` or `fail`. -/
theorem pegout_forward_iff_terminal :
    (∀ (tbl : List ExportRow) (row : ExportRow) (res : SubmitResult) (st : PegOutState),
      classifySubmit res = some st →
        processExportRow tbl row res =
          some (updateExportState tbl row.txid st,
            if st = pegOutOK ∨ st = pegOutFail then some (row.txid, st) else none)
        ∧ ((if st = pegOutOK ∨ st = pegOutFail
              then some (row.txid, st)
              else (none : Option (List Nat × PegOutState))).isSome
            ↔ (st = pegOutOK ∨ st = pegOutFail)))
    ∧ (∀ (tbl : List ExportRow) (r : ExportRow),
      r ∈ selectCompleted tbl ↔
        r ∈ tbl ∧ (r.peggedOut = pegOutOK ∨ r.peggedOut = pegOutFail)) := by
  constructor
  · intro tbl row res st hcl
    constructor
    · unfold processExportRow
      rw [hcl]
    · by_cases hterm : st = pegOutOK ∨ st = pegOutFail
      · simp [hterm]
      · simp [hterm]
  · intro tbl r
    constructor
    · intro h
      have := List.mem_filter.mp h
      exact ⟨this.1, of_decide_eq_true this.2⟩
    · intro h
      exact List.mem_filter.mpr ⟨h.1, decide_eq_true h.2⟩

/-- Witness for the forwarding theorem: processing a concrete retry row
whose resubmission succeeds writes `ok` and forwards `(txid, ok)`. -/
theorem pegout_forward_iff_terminal_witness :
    (processExportRow [{ txid := [3], pegoutJson := [7], peggedOut := pegOutRetry }]
        { txid := [3], pegoutJson := [7], peggedOut := pegOutRetry } none =
      some (updateExportState [{ txid := [3], pegoutJson := [7], peggedOut := pegOutRetry }]
          [3] pegOutOK,
        if pegOutOK = pegOutOK ∨ pegOutOK = pegOutFail
          then some (([3] : List Nat), pegOutOK) else none))
    ∧ ((if pegOutOK = pegOutOK ∨ pegOutOK = pegOutFail
          then some (([3] : List Nat), pegOutOK)
          else (none : Option (List Nat × PegOutState))).isSome
        ↔ (pegOutOK = pegOutOK ∨ pegOutOK = pegOutFail)) :=
  pegout_forward_iff_terminal.1
    [{ txid := [3], pegoutJson := [7], peggedOut := pegOutRetry }]
    { txid := [3], pegoutJson := [7], peggedOut := pegOutRetry } none pegOutOK rfl

/-! The pegs table and the Peg-In Watcher's conditional observed-update
(`watchPegIns`, peg.go lines 21-106). -/

/-- A row of the `pegs` table: nonce hash (primary key), realized
amount and asset, and the `zioncoin_tx` observed flag. -/
structure PegRow where
  nonceHash : List Nat
  amount : Int
  assetXDR : List Nat
  zioncoinTx : Bool
  deriving DecidableEq, Repr

/-- The primary-key invariant of the `pegs` table: no two rows share a
nonce hash. -/
def uniquePegHashes (tbl : List PegRow) : Prop :=
  tbl.Pairwise fun a b => a.nonceHash ≠ b.nonceHash

/-- The statement `UPDATE pegs SET amount=$1, asset_xdr=$2,
zioncoin_tx=1 WHERE nonce_hash=$3 AND zioncoin_tx=0` (peg.go line 63),
returning the updated table together with the number of affected
rows. -/
def condUpdatePegs (tbl : List PegRow) (h : List Nat) (amt : Int) (ax : List Nat) :
    List PegRow × Nat :=
  ((tbl.map fun r =>
      if r.nonceHash = h ∧ r.zioncoinTx = false then
        { r with amount := amt, assetXDR := ax, zioncoinTx := true }
      else r),
   (tbl.filter fun r => decide (r.nonceHash = h ∧ r.zioncoinTx = false)).length)

/-- Whether the table still holds an unobserved row for nonce hash
`h` — i.e. whether the conditional update can still affect a row. -/
def hasUnobserved (tbl : List PegRow) (h : List Nat) : Bool :=
  tbl.any fun r => decide (r.nonceHash = h ∧ r.zioncoinTx = false)

theorem condUpdatePegs_affected_le_one (tbl : List PegRow) (h : List Nat)
    (amt : Int) (ax : List Nat) (hu : uniquePegHashes tbl) :
    (condUpdatePegs tbl h amt ax).2 ≤ 1 := by
  show (tbl.filter fun r => decide (r.nonceHash = h ∧ r.zioncoinTx = false)).length ≤ 1
  induction tbl with
  | nil => simp
  | cons r rest ih =>
      rcases List.pairwise_cons.mp hu with ⟨hr, hrest⟩
      by_cases hc : r.nonceHash = h ∧ r.zioncoinTx = false
      · have hnil : (rest.filter fun x => decide (x.nonceHash = h ∧ x.zioncoinTx = false)) = [] := by
          rw [List.filter_eq_nil_iff]
          intro b hb
          simp only [decide_eq_true_eq, not_and]
          intro hbh _
          exact hr b hb (hc.1.trans hbh.symm)
        simp [List.filter_cons, hc, hnil]
        intro a ha hah
        exact absurd (hc.1.trans hah.symm) (hr a ha)
      · simpa [List.filter_cons, hc] using ih hrest

theorem condUpdatePegs_preserves_unique (tbl : List PegRow) (h : List Nat)
    (amt : Int) (ax : List Nat) (hu : uniquePegHashes tbl) :
    uniquePegHashes (condUpdatePegs tbl h amt ax).1 := by
  show List.Pairwise _ (tbl.map _)
  rw [List.pairwise_map]
  refine hu.imp ?_
  intro a b hab
  have ha : (if a.nonceHash = h ∧ a.zioncoinTx = false then
      { a with amount := amt, assetXDR := ax, zioncoinTx := true } else a).nonceHash
      = a.nonceHash := by
    by_cases hc : a.nonceHash = h ∧ a.zioncoinTx = false <;> simp [hc]
  have hb : (if b.nonceHash = h ∧ b.zioncoinTx = false then
      { b with amount := amt, assetXDR := ax, zioncoinTx := true } else b).nonceHash
      = b.nonceHash := by
    by_cases hc : b.nonceHash = h ∧ b.zioncoinTx = false <;> simp [hc]
  rw [ha, hb]
  exact hab

theorem condUpdatePegs_all_observed (tbl : List PegRow) (h : List Nat)
    (amt : Int) (ax : List Nat) :
    hasUnobserved (condUpdatePegs tbl h amt ax).1 h = false := by
  rw [hasUnobserved, condUpdatePegs]
  simp only [List.any_map, List.any_eq_false, Function.comp]
  intro r _
  by_cases hc : r.nonceHash = h ∧ r.zioncoinTx = false <;> simp [hc]

theorem condUpdatePegs_affected_zero (tbl : List PegRow) (h : List Nat)
    (amt : Int) (ax : List Nat) (h0 : hasUnobserved tbl h = false) :
    (condUpdatePegs tbl h amt ax).2 = 0 := by
  show (tbl.filter fun r => decide (r.nonceHash = h ∧ r.zioncoinTx = false)).length = 0
  rw [List.length_eq_zero, List.filter_eq_nil_iff]
  intro b hb hbc
  have : ∀ x ∈ tbl, ¬(decide (x.nonceHash = h ∧ x.zioncoinTx = false) = true) := by
    simpa [hasUnobserved, List.any_eq_true] using h0
  exact this b hb hbc

/-- A sequence of deliveries of main-ledger transactions carrying the
same nonce hash, each running the conditional observed-update; returns
the final table and the affected-row count of each execution. The
store serializes the updates, so concurrent duplicate deliveries are
modelled as an arbitrary interleaving order. -/
def applyPegInSeq (h : List Nat) : List PegRow → List (Int × List Nat) → List PegRow × List Nat
  | tbl, [] => (tbl, [])
  | tbl, (amt, ax) :: ds =>
      let out := condUpdatePegs tbl h amt ax
      let rest := applyPegInSeq h out.1 ds
      (rest.1, out.2 :: rest.2)

/-- C5: for any nonce hash, starting from a pegs table whose hashes are
unique (the primary-key invariant), any number of deliveries of the
same transaction makes the conditional observed-update affect at most
one row each time, succeed (affect one row) at most once overall, and
affect zero rows in every execution that starts after the row is
already observed. -/
theorem pegin_observed_update_exactly_once (tbl : List PegRow) (h : List Nat)
    (ds : List (Int × List Nat)) (hu : uniquePegHashes tbl) :
    (∀ n ∈ (applyPegInSeq h tbl ds).2, n ≤ 1)
    ∧ (applyPegInSeq h tbl ds).2.count 1 ≤ 1
    ∧ (hasUnobserved tbl h = false → ∀ n ∈ (applyPegInSeq h tbl ds).2, n = 0) := by
  induction ds generalizing tbl with
  | nil => exact ⟨by simp [applyPegInSeq], by simp [applyPegInSeq], by simp [applyPegInSeq]⟩
  | cons d ds ih =>
      obtain ⟨amt, ax⟩ := d
      have hu1 := condUpdatePegs_preserves_unique tbl h amt ax hu
      have hobs := condUpdatePegs_all_observed tbl h amt ax
      have hIH := ih (condUpdatePegs tbl h amt ax).1 hu1
      have htail_zero : ∀ n ∈ (applyPegInSeq h (condUpdatePegs tbl h amt ax).1 ds).2, n = 0 :=
        hIH.2.2 hobs
      have hhead := condUpdatePegs_affected_le_one tbl h amt ax hu
      have hseq : applyPegInSeq h tbl ((amt, ax) :: ds) =
          ((applyPegInSeq h (condUpdatePegs tbl h amt ax).1 ds).1,
            (condUpdatePegs tbl h amt ax).2 ::
              (applyPegInSeq h (condUpdatePegs tbl h amt ax).1 ds).2) := rfl
      rw [hseq]
      refine ⟨?_, ?_, ?_⟩
      · intro n hn
        rcases List.mem_cons.mp hn with rfl | hn2
        · exact hhead
        · exact hIH.1 n hn2
      · have hcount0 : (applyPegInSeq h (condUpdatePegs tbl h amt ax).1 ds).2.count 1 = 0 := by
          rw [List.count_eq_zero]
          intro hmem
          exact absurd (htail_zero 1 hmem) one_ne_zero
        simp only [List.count_cons, hcount0]
        split <;> omega
      · intro h0 n hn
        rcases List.mem_cons.mp hn with rfl | hn2
        · exact condUpdatePegs_affected_zero tbl h amt ax h0
        · exact htail_zero n hn2

/-- Witness for the exactly-once theorem: one unobserved row, two
duplicate deliveries, at most one successful update. -/
theorem pegin_observed_update_exactly_once_witness :
    (applyPegInSeq [9]
      [{ nonceHash := [9], amount := 0, assetXDR := [], zioncoinTx := false }]
      [(50, [1]), (60, [2])]).2.count 1 ≤ 1 :=
  (pegin_observed_update_exactly_once
    [{ nonceHash := [9], amount := 0, assetXDR := [], zioncoinTx := false }]
    [9] [(50, [1]), (60, [2])] (by simp [uniquePegHashes])).2.1

/-- Result of handling one matching payment operation in `watchPegIns`:
either the process is terminated by `log.Fatalf`, or the table is
updated and processing continues. -/
inductive PegInResult
  | fatal (msg : String)
  | updated (tbl : List PegRow)
  deriving DecidableEq, Repr

/-- The observed-update and its affected-row check from `watchPegIns`
(peg.go lines 63-75): run the conditional update, then `log.Fatalf`
whenever the number of affected rows differs from one — including the
zero-row outcome produced by re-delivery of an already-observed peg. -/
def pegInHandlePayment (tbl : List PegRow) (nonceHash : List Nat)
    (amt : Int) (ax : List Nat) : PegInResult :=
  let resulted := condUpdatePegs tbl nonceHash amt ax
  if resulted.2 ≠ 1 then .fatal "multiple rows affected by update query"
  else .updated resulted.1

/-- C6 (code evaluation at the failing input): re-delivering the peg-in
transaction for a nonce hash whose row is already observed makes the
conditional update affect zero rows, and `watchPegIns` then terminates
the process via `log.Fatalf` — with a message claiming multiple rows
were affected — instead of tolerating the no-op. -/
theorem pegin_redelivery_is_fatal :
    pegInHandlePayment
      [{ nonceHash := [9], amount := 50, assetXDR := [1], zioncoinTx := true }]
      [9] 50 [1] = .fatal "multiple rows affected by update query"
    ∧ (condUpdatePegs
      [{ nonceHash := [9], amount := 50, assetXDR := [1], zioncoinTx := true }]
      [9] 50 [1]).2 = 0 := ⟨rfl, rfl⟩

/-! The Export Watcher's recognition of export transactions
(`watchExports`, peg.go lines 109-163). A txvm log is a list of
tuples; each tuple's items are byte strings, integers or nested
tuples. Go's tuple indexing panics when out of range, and the type
assertions `.(txvm.Bytes)` panic when the item is not a byte string;
both panics are modelled as the `none` branches below and surface as
`ScanResult.panicked`. -/

/-- The reference payload struct `pegOut` from export.go lines 29-39.
`TxID` and `State` carry the JSON tag `-` and are never serialized. -/
structure pegOut where
  TxID : List Nat
  AssetXDR : List Nat
  TempAddr : String
  Seqnum : Int
  Exporter : String
  Amount : Int
  Anchor : List Nat
  Pubkey : List Nat
  State : PegOutState
  deriving DecidableEq, Repr

/-- The zero value `var info pegOut` of the payload struct. -/
def pegOutZero : pegOut :=
  { TxID := [], AssetXDR := [], TempAddr := "", Seqnum := 0, Exporter := "",
    Amount := 0, Anchor := [], Pubkey := [], State := pegOutNotYet }

/-- A txvm log item: byte string, integer or nested tuple. -/
inductive LogItem
  | bytes (bs : List Nat)
  | int (n : Int)
  | tuple (ts : List LogItem)

/-- A txvm log entry is a tuple of items. -/
abbrev LogEntry := List LogItem

/-- Log-entry code bytes from the txvm package: `InputCode` is the
byte of the character I, `LogCode` of L, `OutputCode` of O. -/
def txvmInputCode : Nat := 73

/-- The txvm `LogCode` byte. -/
def txvmLogCode : Nat := 76

/-- The txvm `OutputCode` byte. -/
def txvmOutputCode : Nat := 79

/-- The Go type assertion `.(txvm.Bytes)`: `none` models a panic. -/
def asBytes : LogItem → Option (List Nat)
  | .bytes bs => some bs
  | _ => none

/-- Tuple indexing followed by the byte-string type assertion, e.g.
`entry[i].(txvm.Bytes)`; `none` models a panic (index out of range or
wrong dynamic type). -/
def tupleGetBytes (e : LogEntry) (i : Nat) : Option (List Nat) :=
  (e.get? i).bind asBytes

/-- The expression `entry[0].(txvm.Bytes)[0]`: first byte of the first
tuple item; `none` models a panic. -/
def entryCodeByte (e : LogEntry) : Option Nat :=
  match tupleGetBytes e 0 with
  | none => none
  | some [] => none
  | some (b :: _) => some b

/-- Outcome of `watchExports` on one transaction log: a Go runtime
panic, a skip (`continue`, transaction not recognized), or recording
an exports row with the extracted payload bytes. -/
inductive ScanResult
  | panicked
  | skip
  | record (payload : List Nat)
  deriving DecidableEq, Repr

/-- Model of the per-transaction body of `watchExports` (peg.go lines
118-152): check the log length is 5 or 7; check the entry codes at
positions 0 (input), 1 (log), length-2 (output) and length-3 (log);
compare the second item of the entry at length-3 against the export
contract seed; extract the payload from the third item of entry 1;
parse it (`json.Unmarshal`, kept abstract as `parse`); on success,
record the export. -/
def watchExportsScan (seed : List Nat) (parse : List Nat → Option pegOut)
    (lg : List LogEntry) : ScanResult :=
  if lg.length = 5 ∨ lg.length = 7 then
    match entryCodeByte (lg.getD 0 []) with
    | none => .panicked
    | some c0 =>
      if c0 ≠ txvmInputCode then .skip
      else
        match entryCodeByte (lg.getD 1 []) with
        | none => .panicked
        | some c1 =>
          if c1 ≠ txvmLogCode then .skip
          else
            match entryCodeByte (lg.getD (lg.length - 2) []) with
            | none => .panicked
            | some cOut =>
              if cOut ≠ txvmOutputCode then .skip
              else
                match entryCodeByte (lg.getD (lg.length - 3) []) with
                | none => .panicked
                | some cSeed =>
                  if cSeed ≠ txvmLogCode then .skip
                  else
                    match tupleGetBytes (lg.getD (lg.length - 3) []) 1 with
                    | none => .panicked
                    | some sd =>
                      if sd ≠ seed then .skip
                      else
                        match tupleGetBytes (lg.getD 1 []) 2 with
                        | none => .panicked
                        | some ref =>
                          match parse ref with
                          | none => .skip
                          | some _ => .record ref
  else .skip

/-- The shape stated by the claim, read literally: exactly 5 or 7
entries whose entry-kind sequence is input first, log second, then
(at the end) an output entry followed by a log entry whose data
matches the export contract seed. -/
def claimExportShape (seed : List Nat) (lg : List LogEntry) : Bool :=
  (decide (lg.length = 5 ∨ lg.length = 7))
  && (entryCodeByte (lg.getD 0 []) == some txvmInputCode)
  && (entryCodeByte (lg.getD 1 []) == some txvmLogCode)
  && (entryCodeByte (lg.getD (lg.length - 2) []) == some txvmOutputCode)
  && (entryCodeByte (lg.getD (lg.length - 1) []) == some txvmLogCode)
  && (tupleGetBytes (lg.getD (lg.length - 1) []) 1 == some seed)

/-- The shape the code actually checks: the seed-matching log entry
sits at position length-3, before the output entry at length-2, and
the final entry is never inspected. -/
def codeExportShape (seed : List Nat) (lg : List LogEntry) : Bool :=
  (decide (lg.length = 5 ∨ lg.length = 7))
  && (entryCodeByte (lg.getD 0 []) == some txvmInputCode)
  && (entryCodeByte (lg.getD 1 []) == some txvmLogCode)
  && (entryCodeByte (lg.getD (lg.length - 2) []) == some txvmOutputCode)
  && (entryCodeByte (lg.getD (lg.length - 3) []) == some txvmLogCode)
  && (tupleGetBytes (lg.getD (lg.length - 3) []) 1 == some seed)

/-- C3 counterexample: a 5-entry log with the exact claimed entry-kind
sequence — input, log(payload), junk, output at position length-2,
seed-matching log entry last — is not recognized by `watchExports`,
which instead requires the seed-matching log entry at position
length-3, before the output entry. -/
theorem export_recognition_counterexample :
    claimExportShape [1, 2, 3]
      [[.bytes [73]], [.bytes [76], .bytes [9], .bytes [5]], [.bytes [0]],
        [.bytes [79]], [.bytes [76], .bytes [1, 2, 3]]] = true
    ∧ watchExportsScan [1, 2, 3] (fun _ => some pegOutZero)
      [[.bytes [73]], [.bytes [76], .bytes [9], .bytes [5]], [.bytes [0]],
        [.bytes [79]], [.bytes [76], .bytes [1, 2, 3]]] = .skip := ⟨rfl, rfl⟩

theorem scan_record_characterization (seed : List Nat) (parse : List Nat → Option pegOut)
    (lg : List LogEntry) (p : List Nat) :
    watchExportsScan seed parse lg = .record p ↔
      codeExportShape seed lg = true
      ∧ tupleGetBytes (lg.getD 1 []) 2 = some p
      ∧ (parse p).isSome = true := by
  unfold watchExportsScan codeExportShape
  by_cases hlen : lg.length = 5 ∨ lg.length = 7
  · rw [if_pos hlen]
    cases h0 : entryCodeByte (lg.getD 0 []) with
    | none => simp [h0]
    | some c0 =>
      by_cases hc0 : c0 = txvmInputCode
      · subst hc0
        cases h1 : entryCodeByte (lg.getD 1 []) with
        | none => simp [h0, h1]
        | some c1 =>
          by_cases hc1 : c1 = txvmLogCode
          · subst hc1
            cases h2 : entryCodeByte (lg.getD (lg.length - 2) []) with
            | none => simp [h0, h1, h2]
            | some c2 =>
              by_cases hc2 : c2 = txvmOutputCode
              · subst hc2
                cases h3 : entryCodeByte (lg.getD (lg.length - 3) []) with
                | none => simp [h0, h1, h2, h3]
                | some c3 =>
                  by_cases hc3 : c3 = txvmLogCode
                  · subst hc3
                    cases h4 : tupleGetBytes (lg.getD (lg.length - 3) []) 1 with
                    | none => simp [h0, h1, h2, h3, h4]
                    | some sd =>
                      by_cases hc4 : sd = seed
                      · subst hc4
                        cases h5 : tupleGetBytes (lg.getD 1 []) 2 with
                        | none => simp [h0, h1, h2, h3, h4, h5]
                        | some ref =>
                          cases h6 : parse ref with
                          | none =>
                              simp [h0, h1, h2, h3, h4, h5, h6, hlen]
                              rintro rfl
                              exact h6
                          | some q =>
                              simp [h0, h1, h2, h3, h4, h5, h6, hlen]
                              rintro rfl
                              rw [h6]
                              rfl
                      · simp [h0, h1, h2, h3, h4, hc4]
                  · simp [h0, h1, h2, h3, hc3]
              · simp [h0, h1, h2, hc2]
          · simp [h0, h1, hc1]
      · simp [h0, hc0]
  · rw [if_neg hlen]
    simp [hlen]

/-- C3 (amended): `watchExports` recognizes a transaction log, and
records an exports row with payload `p`, iff the log has exactly 5 or
7 entries, entry 0 is an input entry, entry 1 a log entry, the entry
at position length-3 a log entry whose data matches the export
contract seed, the entry at position length-2 an output entry (the
final entry is never inspected), the payload `p` sits in entry 1, and
`p` parses. -/
theorem export_recognition_amended (seed : List Nat) (parse : List Nat → Option pegOut)
    (lg : List LogEntry) (p : List Nat) :
    watchExportsScan seed parse lg = .record p ↔
      codeExportShape seed lg = true
      ∧ tupleGetBytes (lg.getD 1 []) 2 = some p
      ∧ (parse p).isSome = true :=
  scan_record_characterization seed parse lg p

/-- Witness for the amended recognition theorem at a concrete log that
the code records. -/
theorem export_recognition_amended_witness :
    watchExportsScan [1, 2, 3] (fun _ => some pegOutZero)
      [[.bytes [73]], [.bytes [76], .bytes [9], .bytes [42]],
        [.bytes [76], .bytes [1, 2, 3]], [.bytes [79]], [.bytes [70]]] = .record [42] ↔
      codeExportShape [1, 2, 3]
        [[.bytes [73]], [.bytes [76], .bytes [9], .bytes [42]],
          [.bytes [76], .bytes [1, 2, 3]], [.bytes [79]], [.bytes [70]]] = true
      ∧ tupleGetBytes
          (([[.bytes [73]], [.bytes [76], .bytes [9], .bytes [42]],
            [.bytes [76], .bytes [1, 2, 3]], [.bytes [79]], [.bytes [70]]] :
              List LogEntry).getD 1 []) 2 = some [42]
      ∧ ((fun (_ : List Nat) => some pegOutZero) [42]).isSome = true :=
  export_recognition_amended [1, 2, 3] (fun _ => some pegOutZero)
    [[.bytes [73]], [.bytes [76], .bytes [9], .bytes [42]],
      [.bytes [76], .bytes [1, 2, 3]], [.bytes [79]], [.bytes [70]]] [42]

/-- An item whose dynamic type is a nonempty byte string. -/
def headByteItem : LogItem → Bool
  | .bytes (_ :: _) => true
  | _ => false

/-- An item whose dynamic type is a byte string. -/
def byteItem : LogItem → Bool
  | .bytes _ => true
  | _ => false

/-- A log entry shaped as the txvm VM produces them, at the positions
`watchExports` inspects: at least three items, the first a nonempty
byte string (whose first byte is the entry-kind code), the second and
third byte strings. -/
def wellTypedEntry (e : LogEntry) : Bool :=
  match e with
  | it0 :: it1 :: it2 :: _ => headByteItem it0 && byteItem it1 && byteItem it2
  | _ => false

theorem wellTypedEntry_fields (e : LogEntry) (h : wellTypedEntry e = true) :
    (∃ c, entryCodeByte e = some c)
    ∧ (∃ b1, tupleGetBytes e 1 = some b1)
    ∧ (∃ b2, tupleGetBytes e 2 = some b2) := by
  match e with
  | [] => exact Bool.noConfusion h
  | [_] => exact Bool.noConfusion h
  | [_, _] => exact Bool.noConfusion h
  | it0 :: it1 :: it2 :: rest =>
      simp only [wellTypedEntry, Bool.and_eq_true] at h
      obtain ⟨⟨h0, h1⟩, h2⟩ := h
      refine ⟨?_, ?_, ?_⟩
      · match it0, h0 with
        | .bytes (c :: cs), _ => exact ⟨c, rfl⟩
      · match it1, h1 with
        | .bytes b1, _ => exact ⟨b1, rfl⟩
      · match it2, h2 with
        | .bytes b2, _ => exact ⟨b2, rfl⟩

theorem scan_no_panic (seed : List Nat) (parse : List Nat → Option pegOut)
    (lg : List LogEntry) (hwf : ∀ e ∈ lg, wellTypedEntry e = true) :
    watchExportsScan seed parse lg ≠ .panicked := by
  intro hcon
  unfold watchExportsScan at hcon
  by_cases hlen : lg.length = 5 ∨ lg.length = 7
  · rw [if_pos hlen] at hcon
    have hget : ∀ i, i < lg.length → wellTypedEntry (lg.getD i []) = true := by
      intro i hi
      refine hwf _ ?_
      rw [lg.getD_eq_getElem [] hi]
      exact lg.getElem_mem hi
    obtain ⟨⟨c0, hb0⟩, -, -⟩ :=
      wellTypedEntry_fields _ (hget 0 (by rcases hlen with h | h <;> omega))
    obtain ⟨⟨c1, hb1⟩, -, ⟨r2, hr2⟩⟩ :=
      wellTypedEntry_fields _ (hget 1 (by rcases hlen with h | h <;> omega))
    obtain ⟨⟨c2, hb2⟩, -, -⟩ :=
      wellTypedEntry_fields _
        (hget (lg.length - 2) (by rcases hlen with h | h <;> omega))
    obtain ⟨⟨c3, hb3⟩, ⟨s1, hs1⟩, -⟩ :=
      wellTypedEntry_fields _
        (hget (lg.length - 3) (by rcases hlen with h | h <;> omega))
    simp only [hb0] at hcon
    by_cases hx0 : c0 ≠ txvmInputCode
    · rw [if_pos hx0] at hcon
      exact ScanResult.noConfusion hcon
    rw [if_neg hx0] at hcon
    simp only [hb1] at hcon
    by_cases hx1 : c1 ≠ txvmLogCode
    · rw [if_pos hx1] at hcon
      exact ScanResult.noConfusion hcon
    rw [if_neg hx1] at hcon
    simp only [hb2] at hcon
    by_cases hx2 : c2 ≠ txvmOutputCode
    · rw [if_pos hx2] at hcon
      exact ScanResult.noConfusion hcon
    rw [if_neg hx2] at hcon
    simp only [hb3] at hcon
    by_cases hx3 : c3 ≠ txvmLogCode
    · rw [if_pos hx3] at hcon
      exact ScanResult.noConfusion hcon
    rw [if_neg hx3] at hcon
    simp only [hs1] at hcon
    by_cases hx4 : s1 ≠ seed
    · rw [if_pos hx4] at hcon
      exact ScanResult.noConfusion hcon
    rw [if_neg hx4] at hcon
    simp only [hr2] at hcon
    cases hp : parse r2 <;> simp only [hp] at hcon <;> exact ScanResult.noConfusion hcon
  · rw [if_neg hlen] at hcon
    exact ScanResult.noConfusion hcon

/-- C7 counterexample: the claim that the watcher never panics on
ill-typed log entries is false — a 5-entry log whose first entry's
first item is an integer makes the Go type assertion
`tx.Log[0][0].(txvm.Bytes)` panic. -/
theorem export_watcher_illtyped_panics :
    watchExportsScan [1, 2, 3] (fun _ => some pegOutZero)
      [[.int 1], [], [], [], []] = .panicked := rfl

/-- C7 (amended): on any transaction log whose entries are well-typed
at the inspected positions (as the txvm VM guarantees for its own
logs), `watchExports` never panics, and any log it does not record —
wrong length, wrong entry kinds, wrong seed, or a payload that fails
to parse — is skipped with no error; recording happens only when the
payload parses. -/
theorem export_watcher_skips_malformed (seed : List Nat)
    (parse : List Nat → Option pegOut) (lg : List LogEntry)
    (hwf : ∀ e ∈ lg, wellTypedEntry e = true) :
    watchExportsScan seed parse lg ≠ .panicked
    ∧ ∀ p, watchExportsScan seed parse lg = .record p → (parse p).isSome = true :=
  ⟨scan_no_panic seed parse lg hwf,
    fun p hp => ((scan_record_characterization seed parse lg p).mp hp).2.2⟩

/-- Witness for the no-panic theorem on a concrete well-typed log that
does not match the export shape. -/
theorem export_watcher_skips_malformed_witness :
    watchExportsScan [1, 2, 3] (fun _ => some pegOutZero)
      [[.bytes [79], .bytes [], .bytes []], [.bytes [76], .bytes [9], .bytes [42]],
        [.bytes [76], .bytes [1, 2, 3], .bytes []], [.bytes [79], .bytes [], .bytes []],
        [.bytes [70], .bytes [], .bytes []]] ≠ .panicked :=
  (export_watcher_skips_malformed [1, 2, 3] (fun _ => some pegOutZero)
    [[.bytes [79], .bytes [], .bytes []], [.bytes [76], .bytes [9], .bytes [42]],
      [.bytes [76], .bytes [1, 2, 3], .bytes []], [.bytes [79], .bytes [], .bytes []],
      [.bytes [70], .bytes [], .bytes []]]
    (by decide)).1

/-! JSON round-trip of the reference payload (`json.Marshal` in
`BuildExportTx`, export.go lines 359-371, against `json.Unmarshal` in
`watchExports` and `pegOutFromExports`). Go's encoding/json maps the
`pegOut` struct to an object whose keys follow the struct tags (`TxID`
and `State` are tagged `-` and skipped), encodes `[]byte` fields as
standard base64 strings, string fields as JSON strings and int64
fields as numbers, and on unmarshal fills the zero-valued target
struct from the object by key. The model works at the level of JSON
values; the text layer is the library's. -/

/-- The standard base64 alphabet. -/
def b64Chars : List Char :=
  ['A', 'B', 'C', 'D', 'E', 'F', 'G', 'H', 'I', 'J', 'K', 'L', 'M',
   'N', 'O', 'P', 'Q', 'R', 'S', 'T', 'U', 'V', 'W', 'X', 'Y', 'Z',
   'a', 'b', 'c', 'd', 'e', 'f', 'g', 'h', 'i', 'j', 'k', 'l', 'm',
   'n', 'o', 'p', 'q', 'r', 's', 't', 'u', 'v', 'w', 'x', 'y', 'z',
   '0', '1', '2', '3', '4', '5', '6', '7', '8', '9', '+', '/']

/-- Alphabet character of a sextet. -/
def b64Char (i : Nat) : Char := b64Chars.getD i 'A'

/-- Sextet of an alphabet character. -/
def b64Sextet (c : Char) : Option Nat := b64Chars.indexOf? c

/-- Base64 encoding (standard alphabet, with padding) of a byte
sequence, three bytes to four characters. -/
def b64EncodeCore : List Nat → List Char
  | [] => []
  | [a] => [b64Char (a / 4), b64Char (a % 4 * 16), '=', '=']
  | [a, b] => [b64Char (a / 4), b64Char (a % 4 * 16 + b / 16), b64Char (b % 16 * 4), '=']
  | a :: b :: c :: rest =>
      b64Char (a / 4) :: b64Char (a % 4 * 16 + b / 16) ::
        b64Char (b % 16 * 4 + c / 64) :: b64Char (c % 64) :: b64EncodeCore rest

/-- Base64 decoding, the inverse of `b64EncodeCore`; `none` on
malformed input. -/
def b64DecodeCore : List Char → Option (List Nat)
  | [] => some []
  | c0 :: c1 :: c2 :: c3 :: rest =>
      if c2 = '=' then
        if c3 = '=' ∧ rest = [] then
          match b64Sextet c0, b64Sextet c1 with
          | some s0, some s1 => some [s0 * 4 + s1 / 16]
          | _, _ => none
        else none
      else if c3 = '=' then
        if rest = [] then
          match b64Sextet c0, b64Sextet c1, b64Sextet c2 with
          | some s0, some s1, some s2 =>
              some [s0 * 4 + s1 / 16, s1 % 16 * 16 + s2 / 4]
          | _, _, _ => none
        else none
      else
        match b64Sextet c0, b64Sextet c1, b64Sextet c2, b64Sextet c3 with
        | some s0, some s1, some s2, some s3 =>
            match b64DecodeCore rest with
            | some ds =>
                some ((s0 * 4 + s1 / 16) :: (s1 % 16 * 16 + s2 / 4) :: (s2 % 4 * 64 + s3) :: ds)
            | none => none
        | _, _, _, _ => none
  | _ => none

theorem b64Sextet_b64Char : ∀ i, i < 64 → b64Sextet (b64Char i) = some i := by decide

theorem b64Char_ne_pad : ∀ i, i < 64 → b64Char i ≠ '=' := by decide

theorem b64_roundtrip (l : List Nat) :
    (∀ b ∈ l, b < 256) → b64DecodeCore (b64EncodeCore l) = some l := by
  induction l using b64EncodeCore.induct with
  | case1 => intro _; rfl
  | case2 a =>
      intro h
      have ha : a < 256 := h a (by simp)
      simp [b64EncodeCore, b64DecodeCore,
        b64Sextet_b64Char (a / 4) (by omega),
        b64Sextet_b64Char (a % 4 * 16) (by omega)]
      omega
  | case3 a b =>
      intro h
      have ha : a < 256 := h a (by simp)
      have hb : b < 256 := h b (by simp)
      simp [b64EncodeCore, b64DecodeCore,
        b64Sextet_b64Char (a / 4) (by omega),
        b64Sextet_b64Char (a % 4 * 16 + b / 16) (by omega),
        b64Sextet_b64Char (b % 16 * 4) (by omega),
        b64Char_ne_pad (b % 16 * 4) (by omega)]
      constructor <;> omega
  | case4 a b c rest ih =>
      intro h
      have ha : a < 256 := h a (by simp)
      have hb : b < 256 := h b (by simp)
      have hc : c < 256 := h c (by simp)
      have hrest := ih (fun x hx => h x (by simp [hx]))
      simp [b64EncodeCore, b64DecodeCore,
        b64Sextet_b64Char (a / 4) (by omega),
        b64Sextet_b64Char (a % 4 * 16 + b / 16) (by omega),
        b64Sextet_b64Char (b % 16 * 4 + c / 64) (by omega),
        b64Sextet_b64Char (c % 64) (by omega),
        b64Char_ne_pad (b % 16 * 4 + c / 64) (by omega),
        b64Char_ne_pad (c % 64) (by omega),
        hrest]
      refine ⟨by omega, by omega, by omega⟩

/-- Base64 encoding to a string, as encoding/json does for `[]byte`. -/
def b64EncodeStr (bs : List Nat) : String := String.mk (b64EncodeCore bs)

/-- Base64 decoding of a string. -/
def b64DecodeStr (s : String) : Option (List Nat) := b64DecodeCore s.data

theorem b64Str_roundtrip (bs : List Nat) (h : ∀ b ∈ bs, b < 256) :
    b64DecodeStr (b64EncodeStr bs) = some bs :=
  b64_roundtrip bs h

/-- A JSON value, restricted to the fragment the payload uses. -/
inductive JValue
  | str (s : String)
  | num (n : Int)
  | obj (fields : List (String × JValue))

/-- Key lookup in a JSON object, as `json.Unmarshal` matches object
keys to struct fields. -/
def jlookup (fs : List (String × JValue)) (k : String) : Option JValue :=
  match fs.find? fun f => f.1 == k with
  | some f => some f.2
  | none => none

/-- Reading a JSON string into a Go `string` field. -/
def jStr : Option JValue → Option String
  | some (.str s) => some s
  | _ => none

/-- Reading a JSON number into a Go `int64` field. -/
def jNum : Option JValue → Option Int
  | some (.num n) => some n
  | _ => none

/-- Reading a base64 JSON string into a Go `[]byte` field. -/
def jBytes (v : Option JValue) : Option (List Nat) :=
  match jStr v with
  | some s => b64DecodeStr s
  | none => none

/-- Model of `json.Marshal` on the `pegOut` struct: an object with the
tagged keys in struct order; `TxID` and `State` (tag `-`) are
skipped. -/
def jsonMarshalPegOut (p : pegOut) : JValue :=
  .obj [("asset", .str (b64EncodeStr p.AssetXDR)),
        ("temp", .str p.TempAddr),
        ("seqnum", .num p.Seqnum),
        ("exporter", .str p.Exporter),
        ("amount", .num p.Amount),
        ("anchor", .str (b64EncodeStr p.Anchor)),
        ("pubkey", .str (b64EncodeStr p.Pubkey))]

/-- Model of `json.Unmarshal` into a zero-valued `var info pegOut`:
each tagged field is filled from the object by key; `TxID` and `State`
keep their zero values. -/
def jsonUnmarshalPegOut (v : JValue) : Option pegOut :=
  match v with
  | .obj fs =>
      match jBytes (jlookup fs "asset"), jStr (jlookup fs "temp"),
            jNum (jlookup fs "seqnum"), jStr (jlookup fs "exporter"),
            jNum (jlookup fs "amount"), jBytes (jlookup fs "anchor"),
            jBytes (jlookup fs "pubkey") with
      | some asset, some temp, some sq, some ex, some am, some an, some pk =>
          some { TxID := [], AssetXDR := asset, TempAddr := temp, Seqnum := sq,
                 Exporter := ex, Amount := am, Anchor := an, Pubkey := pk,
                 State := pegOutNotYet }
      | _, _, _, _, _, _, _ => none
  | _ => none

/-- The payload's byte fields hold bytes (each element < 256), as Go
`[]byte` values do by construction. -/
def pegOutBytesBounded (p : pegOut) : Prop :=
  (∀ b ∈ p.AssetXDR, b < 256) ∧ (∀ b ∈ p.Anchor, b < 256) ∧ (∀ b ∈ p.Pubkey, b < 256)

/-- C8: deserializing the bytes produced by serializing a `pegOut`
record recovers exactly the seven payload fields — asset descriptor,
temp account address, sequence number, exporter address, amount,
anchor and exporter public key — while the unserialized `TxID` and
`State` fields come back as their zero values. -/
theorem pegout_payload_roundtrip (p : pegOut) (h : pegOutBytesBounded p) :
    jsonUnmarshalPegOut (jsonMarshalPegOut p) =
      some { TxID := [], AssetXDR := p.AssetXDR, TempAddr := p.TempAddr,
             Seqnum := p.Seqnum, Exporter := p.Exporter, Amount := p.Amount,
             Anchor := p.Anchor, Pubkey := p.Pubkey, State := pegOutNotYet } := by
  obtain ⟨hA, hN, hP⟩ := h
  have h1 : b64DecodeStr (b64EncodeStr p.AssetXDR) = some p.AssetXDR :=
    b64Str_roundtrip _ hA
  have h2 : b64DecodeStr (b64EncodeStr p.Anchor) = some p.Anchor :=
    b64Str_roundtrip _ hN
  have h3 : b64DecodeStr (b64EncodeStr p.Pubkey) = some p.Pubkey :=
    b64Str_roundtrip _ hP
  have key : jsonUnmarshalPegOut (jsonMarshalPegOut p) =
      match b64DecodeStr (b64EncodeStr p.AssetXDR), (some p.TempAddr : Option String),
        (some p.Seqnum : Option Int), (some p.Exporter : Option String),
        (some p.Amount : Option Int), b64DecodeStr (b64EncodeStr p.Anchor),
        b64DecodeStr (b64EncodeStr p.Pubkey) with
      | some asset, some temp, some sq, some ex, some am, some an, some pk =>
          some { TxID := [], AssetXDR := asset, TempAddr := temp, Seqnum := sq,
                 Exporter := ex, Amount := am, Anchor := an, Pubkey := pk,
                 State := pegOutNotYet }
      | _, _, _, _, _, _, _ => none := rfl
  rw [key, h1, h2, h3]

/-- Witness for the round-trip theorem at a concrete payload. -/
theorem pegout_payload_roundtrip_witness :
    jsonUnmarshalPegOut (jsonMarshalPegOut
      { TxID := [1], AssetXDR := [0, 255], TempAddr := "GTEMP", Seqnum := 7,
        Exporter := "GEXP", Amount := 50, Anchor := [5, 6, 7, 8], Pubkey := [9],
        State := pegOutRetry }) =
      some { TxID := [], AssetXDR := [0, 255], TempAddr := "GTEMP", Seqnum := 7,
             Exporter := "GEXP", Amount := 50, Anchor := [5, 6, 7, 8], Pubkey := [9],
             State := pegOutNotYet } :=
  pegout_payload_roundtrip
    { TxID := [1], AssetXDR := [0, 255], TempAddr := "GTEMP", Seqnum := 7,
      Exporter := "GEXP", Amount := 50, Anchor := [5, 6, 7, 8], Pubkey := [9],
      State := pegOutRetry }
    ⟨by decide, by decide, by decide⟩

end Slidechain
